import Mathlib

/-!
Verification development for `stock_price.py`: a shallow embedding of the
script's CSV loader, oscillator computation and top-level control flow,
with prices and windows modelled as rationals.
-/

namespace StockPrice

/-- Smoothing factor derived from a span, as pandas derives it:
`com = (span - 1) / 2` and `alpha = 1 / (1 + com) = 2 / (span + 1)`. -/
def alpha (span : ℚ) : ℚ := 2 / (span + 1)

/-- Recursive worker for the exponentially weighted moving average.
`num` and `den` carry the running weighted numerator
`sum of b^j * x[i-j]` and weight total `sum of b^j` scaled by `b` at each
step, so the emitted value at each position is their quotient. -/
def ewmaAux (b : ℚ) : List ℚ → ℚ → ℚ → List ℚ
  | [], _, _ => []
  | x :: xs, num, den =>
    let num2 := x + b * num
    let den2 := 1 + b * den
    num2 / den2 :: ewmaAux b xs num2 den2

/-- Model of `pandas.ewma(np.asarray(xs), span=span)` as called by
`plot_data` (lines 77, 78, 85 of `stock_price.py`), with the library's
default keyword arguments `adjust=True`, `min_periods=0`,
`ignore_na=False` and no missing values in the input: the result at
index `i` is `(sum_j (1-alpha)^j * x[i-j]) / (sum_j (1-alpha)^j)` with
`j` ranging over `0..i` and `alpha = 2/(span+1)`. -/
def ewma (span : ℚ) (xs : List ℚ) : List ℚ := ewmaAux (1 - alpha span) xs 0 0

/-- Geometric weight total `sum of b^j for j in 0..i`. -/
def geomSum (b : ℚ) (i : ℕ) : ℚ := ∑ j ∈ Finset.range (i + 1), b ^ j

/-- Weighted sum `sum of b^j * xs[i-j] for j in 0..i` (out-of-range reads
default to 0; all reads are in range when `i < xs.length`). -/
def weightedSum (b : ℚ) (xs : List ℚ) (i : ℕ) : ℚ :=
  ∑ j ∈ Finset.range (i + 1), b ^ j * xs.getD (i - j) 0

/-- The five series computed by `plot_data` (lines 74-89): the two price
averages, their difference, the smoothed difference, and the residual. -/
structure SeriesBundle where
  lt_av : List ℚ
  st_av : List ℚ
  diff_ltst : List ℚ
  diff_ltst_av : List ℚ
  diff_av_diff : List ℚ

/-- Model of the numeric part of `plot_data(data, out_file, long_win,
short_win)` (lines 62-89). The two index loops filling `diff_ltst` and
`diff_av_diff` are rendered as `zipWith` of subtraction, which agrees
with the loops because the zipped lists have equal length. The smoothing
span of `diff_ltst_av` is the fixed `1.5 * 7 = 10.5` days of line 85. -/
def plot_data (long_win short_win : ℚ) (prices : List ℚ) : SeriesBundle :=
  let lt_av := ewma long_win prices
  let st_av := ewma short_win prices
  let diff_ltst := List.zipWith (fun a b => a - b) lt_av st_av
  let diff_ltst_av := ewma (3 / 2 * 7) diff_ltst
  let diff_av_diff := List.zipWith (fun a b => a - b) diff_ltst diff_ltst_av
  ⟨lt_av, st_av, diff_ltst, diff_ltst_av, diff_av_diff⟩

/-- The Python exception kinds the script can raise: `IOError` from
opening/reading the input file, `ValueError` from `float`, `strptime` or
`datetime` construction, `IndexError` from indexing a too-short row or
an empty string. -/
inductive PyError
  | ioError
  | valueError
  | indexError
deriving DecidableEq

/-- Value of a list of decimal digit characters. -/
def digitsToNat (cs : List Char) : ℕ :=
  cs.foldl (fun acc c => 10 * acc + (c.toNat - 48)) 0

/-- Split a character list at every occurrence of a separator character
(the analogue of splitting a string, used to model `strptime`'s fixed
`-` separators and `float`'s decimal point). -/
def splitChar (sep : Char) : List Char → List (List Char)
  | [] => [[]]
  | c :: rest =>
    let r := splitChar sep rest
    if c = sep then [] :: r
    else
      match r with
      | [] => [[c]]
      | h :: t => (c :: h) :: t

/-- Model of Python `float(s)` on the plain decimal literals this program
feeds it (optional sign, digits, at most one decimal point; no exponent
or whitespace forms, which no input of this program uses). `none` models
a raised `ValueError`. -/
def pyFloat (cs : List Char) : Option ℚ :=
  let signed : ℚ × List Char :=
    match cs with
    | '-' :: rest => (-1, rest)
    | '+' :: rest => (1, rest)
    | _ => (1, cs)
  match splitChar '.' signed.2 with
  | [intPart] =>
    if intPart ≠ [] ∧ intPart.all Char.isDigit then
      some (signed.1 * digitsToNat intPart)
    else none
  | [intPart, fracPart] =>
    if (intPart ≠ [] ∨ fracPart ≠ []) ∧ intPart.all Char.isDigit ∧
        fracPart.all Char.isDigit then
      some (signed.1 *
        ((digitsToNat intPart : ℚ) + (digitsToNat fracPart : ℚ) / 10 ^ fracPart.length))
    else none
  | _ => none

/-- Model of `__convert_input(val)` (lines 128-141): a trailing `w`
multiplies the numeric part by 7, a trailing `d` leaves it in days, and
anything else is read as a whole number of weeks. Indexing `val[-1]` on
an empty string raises `IndexError`; a non-numeric remainder makes
`float` raise `ValueError`. -/
def convert_input (val : List Char) : Except PyError ℚ :=
  match val.getLast? with
  | none => .error .indexError
  | some c =>
    if c = 'w' then
      match pyFloat val.dropLast with
      | none => .error .valueError
      | some q => .ok (q * 7)
    else if c = 'd' then
      match pyFloat val.dropLast with
      | none => .error .valueError
      | some q => .ok q
    else
      match pyFloat val with
      | none => .error .valueError
      | some q => .ok (q * 7)

/-- A calendar date as `datetime.strptime` produces it. -/
structure Date where
  year : ℕ
  month : ℕ
  day : ℕ
deriving DecidableEq

/-- Injective, order-preserving encoding of a valid date (month < 16,
day < 32); Python's `datetime` comparison is chronological, i.e.
lexicographic on (year, month, day). -/
def Date.toNat (d : Date) : ℕ := (d.year * 16 + d.month) * 32 + d.day

/-- The lowercase month abbreviations recognised by `strptime`'s `%b`. -/
def monthNames : List (List Char) :=
  ["jan".data, "feb".data, "mar".data, "apr".data, "may".data, "jun".data,
   "jul".data, "aug".data, "sep".data, "oct".data, "nov".data, "dec".data]

/-- Month number from an abbreviation, case-insensitively as `strptime`
matches `%b`. -/
def monthNum (cs : List Char) : Option ℕ :=
  (monthNames.findIdx? (fun m => m = cs.map Char.toLower)).map (· + 1)

/-- Gregorian leap-year rule used by `datetime`. -/
def isLeap (y : ℕ) : Bool := (y % 4 = 0 && y % 100 ≠ 0) || y % 400 = 0

/-- Number of days in a month, as `datetime` validates the day field. -/
def daysInMonth (y m : ℕ) : ℕ :=
  if m = 2 then (if isLeap y then 29 else 28)
  else if m = 4 ∨ m = 6 ∨ m = 9 ∨ m = 11 then 30
  else 31

/-- Model of `datetime.strptime(s, "%d-%b-%y")` (line 55): a 1-2 digit
day, an abbreviated month name and a 2-digit year separated by `-`; the
two-digit year is pivoted (00-68 to 2000s, 69-99 to 1900s) and the day
is validated against the month length. `none` models `ValueError`. -/
def strptimeDmyDate (cs : List Char) : Option Date :=
  match splitChar '-' cs with
  | [ds, ms, ys] =>
    if ds ≠ [] ∧ ds.length ≤ 2 ∧ ds.all Char.isDigit then
      match monthNum ms with
      | none => none
      | some m =>
        if ys.length = 2 ∧ ys.all Char.isDigit then
          let d := digitsToNat ds
          let yy := digitsToNat ys
          let y := if yy ≤ 68 then 2000 + yy else 1900 + yy
          if 1 ≤ d ∧ d ≤ daysInMonth y m then some ⟨y, m, d⟩ else none
        else none
    else none
  | _ => none

/-- Parse one data row as the comprehension on line 55 does: evaluate
`datetime.strptime(r[0], "%d-%b-%y")` first, then `float(r[4])`;
indexing past the row's end raises `IndexError`, a failed parse raises
`ValueError`. -/
def parseRow (r : List String) : Except PyError (Date × ℚ) :=
  match r.get? 0 with
  | none => .error .indexError
  | some s0 =>
    match strptimeDmyDate s0.data with
    | none => .error .valueError
    | some dt =>
      match r.get? 4 with
      | none => .error .indexError
      | some s4 =>
        match pyFloat s4.data with
        | none => .error .valueError
        | some v => .ok (dt, v)

/-- Comparison on (date, price) pairs by date, the `key=lambda x: x[0]`
of line 58 (Python compares `datetime`s chronologically). -/
def dateLe (a b : Date × ℚ) : Bool := decide (a.1.toNat ≤ b.1.toNat)

/-- Model of `process_csv_file` (lines 33-59) applied to the parsed CSV
rows: skip the header row, parse each remaining row left to right
(first exception wins, as in the list comprehension), and sort the
result by date with a stable sort, as `sorted(data, key=lambda x: x[0])`
does. -/
def process_csv_file (rows : List (List String)) :
    Except PyError (List (Date × ℚ)) := do
  let body := rows.drop 1
  let data ← body.mapM parseRow
  return data.mergeSort dateLe

/-- How one run of `__main` (lines 156-171) ends: normal exit (status 0),
an exception caught by the top-level handler and printed as a one-line
`<kind>: <message>` diagnostic followed by `sys.exit(1)`, or an
exception that escapes `__main` entirely, which makes the interpreter
print a traceback and exit with status 1. -/
inductive MainOutcome
  | ok
  | exitPrinted (kind : String)
  | uncaught (e : PyError)
deriving DecidableEq

/-- Process exit status of an outcome. -/
def MainOutcome.exitCode : MainOutcome → ℕ
  | .ok => 0
  | .exitPrinted _ => 1
  | .uncaught _ => 1

/-- Whether the outcome printed the one-line kind-prefixed diagnostic of
the top-level handler (an uncaught exception prints a traceback
instead). -/
def MainOutcome.printsKindLine : MainOutcome → Bool
  | .exitPrinted _ => true
  | _ => false

/-- Model of `__main` (lines 156-171). The input file is `none` when
opening/reading it would raise `IOError`, otherwise the list of CSV
rows. Crucially, `__convert_input` runs on the short window first, then
the long one, both BEFORE the `try` block, so their exceptions are not
caught; inside the `try`, `IOError` and `ValueError` are caught and
printed while any other exception escapes. -/
def main_model (file : Option (List (List String))) (longArg shortArg : List Char) :
    MainOutcome :=
  match convert_input shortArg with
  | .error e => .uncaught e
  | .ok _short_win =>
    match convert_input longArg with
    | .error e => .uncaught e
    | .ok _long_win =>
      match file with
      | none => .exitPrinted "IOError"
      | some rows =>
        match process_csv_file rows with
        | .error .ioError => .exitPrinted "IOError"
        | .error .valueError => .exitPrinted "ValueError"
        | .error .indexError => .uncaught .indexError
        | .ok _ => .ok

/-- The series bundle actually computed by a successful run of `__main`:
line 165 calls `plot_data(data, out_fpath, short_win, long_win)`, so the
value converted from the SHORT argument is passed positionally into
`plot_data`'s `long_win` parameter and vice versa. -/
def main_series (longArg shortArg : List Char) (prices : List ℚ) :
    Option SeriesBundle :=
  match convert_input shortArg, convert_input longArg with
  | .ok short_win, .ok long_win => some (plot_data short_win long_win prices)
  | _, _ => none

/-- Average absolute deviation between two equal-length series, used to
state how tightly an average tracks the raw prices. -/
def avgAbsDev (xs ys : List ℚ) : ℚ :=
  (List.zipWith (fun a b => |a - b|) xs ys).sum / xs.length

/-- A strictly increasing price sequence. -/
def StrictIncr (xs : List ℚ) : Prop := List.Chain' (· < ·) xs

instance : DecidablePred StrictIncr := fun xs =>
  inferInstanceAs (Decidable (List.Chain' (· < ·) xs))

end StockPrice

namespace StockPrice

/-! ### Basic lemmas about the averaging worker -/

theorem ewmaAux_length (b : ℚ) (xs : List ℚ) (n d : ℚ) :
    (ewmaAux b xs n d).length = xs.length := by
  induction xs generalizing n d with
  | nil => rfl
  | cons x xs ih => simp [ewmaAux, ih]

theorem ewma_length (span : ℚ) (xs : List ℚ) :
    (ewma span xs).length = xs.length :=
  ewmaAux_length _ _ _ _

theorem getD_zipWith (f : ℚ → ℚ → ℚ) (xs ys : List ℚ) (i : ℕ)
    (hx : i < xs.length) (hy : i < ys.length) :
    (List.zipWith f xs ys).getD i 0 = f (xs.getD i 0) (ys.getD i 0) := by
  induction xs generalizing ys i with
  | nil => simp at hx
  | cons x xs ih =>
    cases ys with
    | nil => simp at hy
    | cons y ys =>
      cases i with
      | zero => simp
      | succ i =>
        simpa using ih ys i (by simpa using hx) (by simpa using hy)

theorem ewmaAux_getD (b : ℚ) (xs : List ℚ) (n d : ℚ) (i : ℕ)
    (hi : i < xs.length) :
    (ewmaAux b xs n d).getD i 0 =
      ((∑ j ∈ Finset.range (i + 1), b ^ j * xs.getD (i - j) 0) + b ^ (i + 1) * n) /
        ((∑ j ∈ Finset.range (i + 1), b ^ j) + b ^ (i + 1) * d) := by
  induction xs generalizing n d i with
  | nil => simp at hi
  | cons x xs ih =>
    cases i with
    | zero =>
      simp [ewmaAux, Finset.sum_range_one]
    | succ i =>
      have hi2 : i < xs.length := by simpa using hi
      show (ewmaAux b xs (x + b * n) (1 + b * d)).getD i 0 = _
      rw [ih (x + b * n) (1 + b * d) i hi2]
      have hnum : ∀ j ∈ Finset.range (i + 1),
          b ^ j * (x :: xs).getD (i + 1 - j) 0 = b ^ j * xs.getD (i - j) 0 := by
        intro j hj
        have hji : j ≤ i := Nat.lt_succ_iff.mp (Finset.mem_range.mp hj)
        have h2 : i + 1 - j = (i - j) + 1 := by omega
        rw [h2, List.getD_cons_succ]
      have hns : ∑ j ∈ Finset.range (i + 1 + 1), b ^ j * (x :: xs).getD (i + 1 - j) 0
          = (∑ j ∈ Finset.range (i + 1), b ^ j * xs.getD (i - j) 0) + b ^ (i + 1) * x := by
        rw [Finset.sum_range_succ, Finset.sum_congr rfl hnum]
        simp
      have hds : ∑ j ∈ Finset.range (i + 1 + 1), b ^ j
          = (∑ j ∈ Finset.range (i + 1), b ^ j) + b ^ (i + 1) :=
        Finset.sum_range_succ _ _
      rw [hns, hds]
      congr 1 <;> ring

theorem ewma_getD (span : ℚ) (xs : List ℚ) (i : ℕ) (hi : i < xs.length) :
    (ewma span xs).getD i 0 =
      weightedSum (1 - alpha span) xs i / geomSum (1 - alpha span) i := by
  rw [ewma, ewmaAux_getD _ _ _ _ _ hi, weightedSum, geomSum]
  simp

theorem ewma_getD_zero (span : ℚ) (xs : List ℚ) (h : 0 < xs.length) :
    (ewma span xs).getD 0 0 = xs.getD 0 0 := by
  rw [ewma_getD span xs 0 h, weightedSum, geomSum]
  simp

theorem ewma_cons_head (span x : ℚ) (xs : List ℚ) :
    (ewma span (x :: xs)).head? = some x := by
  show some ((x + (1 - alpha span) * 0) / (1 + (1 - alpha span) * 0)) = some x
  norm_num

theorem ewma_singleton (span x : ℚ) : ewma span [x] = [x] := by
  show [(x + (1 - alpha span) * 0) / (1 + (1 - alpha span) * 0)] = [x]
  norm_num

/-! ### Claim theorems: the oscillator engine -/

/-- C1 counterexample: the averages computed through `pandas.ewma` do NOT
satisfy the unadjusted recursion `ewma[i] = a*x[i] + (1-a)*ewma[i-1]`
with `a = 2/(s+1)`: with the default long span 28 and prices `[0, 1]`,
the computed `lt_av[1]` is `29/56` while the unadjusted recursion
demands `2/29`. -/
theorem ewma_not_unadjusted_recursion :
    (plot_data 28 14 [0, 1]).lt_av.getD 1 0 ≠
      alpha 28 * 1 + (1 - alpha 28) * ((plot_data 28 14 [0, 1]).lt_av.getD 0 0) := by
  norm_num [plot_data, ewma, ewmaAux, alpha]

/-- C1 (amended): for every span and every in-range index, the computed
average satisfies pandas' ADJUSTED form with first-value seeding:
`ewma[i] = (sum of (1-a)^j * x[i-j]) / (sum of (1-a)^j)` over `j = 0..i`
with `a = 2/(s+1)`; in particular `ewma[0] = x[0]`. The recursion of the
claim holds for the weighted numerator and weight total separately, not
for the quotient. -/
theorem ewma_adjusted_closed_form (span : ℚ) (xs : List ℚ) (i : ℕ)
    (hi : i < xs.length) :
    (ewma span xs).getD i 0 =
      weightedSum (1 - alpha span) xs i / geomSum (1 - alpha span) i ∧
    (ewma span xs).getD 0 0 = xs.getD 0 0 :=
  ⟨ewma_getD span xs i hi, ewma_getD_zero span xs (Nat.lt_of_le_of_lt (Nat.zero_le i) hi)⟩

/-- Witness for the amended C1 at span 28, prices `[0, 1]`, index 1. -/
theorem ewma_adjusted_closed_form_witness :
    1 < ([0, 1] : List ℚ).length ∧
    ((ewma 28 [0, 1]).getD 1 0 =
        weightedSum (1 - alpha 28) [0, 1] 1 / geomSum (1 - alpha 28) 1 ∧
      (ewma 28 [0, 1]).getD 0 0 = ([0, 1] : List ℚ).getD 0 0) :=
  ⟨by simp, ewma_adjusted_closed_form 28 [0, 1] 1 (by simp)⟩

/-- C3: the difference series is the element-wise difference of the two
averages, and the residual is the element-wise difference of the
difference series and its smoothed version. -/
theorem plot_data_diff_residual_identities (long_win short_win : ℚ)
    (prices : List ℚ) (i : ℕ) (hi : i < prices.length) :
    (plot_data long_win short_win prices).diff_ltst.getD i 0 =
      (plot_data long_win short_win prices).lt_av.getD i 0 -
        (plot_data long_win short_win prices).st_av.getD i 0 ∧
    (plot_data long_win short_win prices).diff_av_diff.getD i 0 =
      (plot_data long_win short_win prices).diff_ltst.getD i 0 -
        (plot_data long_win short_win prices).diff_ltst_av.getD i 0 := by
  constructor
  · exact getD_zipWith _ _ _ i (by rw [ewma_length]; exact hi)
      (by rw [ewma_length]; exact hi)
  · refine getD_zipWith _ _ _ i ?_ ?_
    · simp only [plot_data, List.length_zipWith, ewma_length]
      omega
    · simp only [plot_data, ewma_length, List.length_zipWith, ewma_length]
      omega

/-- Witness for C3 at the default windows, prices `[0, 1]`, index 1. -/
theorem plot_data_diff_residual_identities_witness :
    1 < ([0, 1] : List ℚ).length ∧
    ((plot_data 28 14 [0, 1]).diff_ltst.getD 1 0 =
        (plot_data 28 14 [0, 1]).lt_av.getD 1 0 -
          (plot_data 28 14 [0, 1]).st_av.getD 1 0 ∧
      (plot_data 28 14 [0, 1]).diff_av_diff.getD 1 0 =
        (plot_data 28 14 [0, 1]).diff_ltst.getD 1 0 -
          (plot_data 28 14 [0, 1]).diff_ltst_av.getD 1 0) :=
  ⟨by simp, plot_data_diff_residual_identities 28 14 [0, 1] 1 (by simp)⟩

/-- C4: both exponentially weighted averages are seeded with the first
price, and a single-element input yields that element back for any
span. -/
theorem ewma_first_value_seeding (long_win short_win span x : ℚ)
    (xs : List ℚ) :
    (plot_data long_win short_win (x :: xs)).lt_av.head? = some x ∧
    (plot_data long_win short_win (x :: xs)).st_av.head? = some x ∧
    ewma span [x] = [x] :=
  ⟨ewma_cons_head _ _ _, ewma_cons_head _ _ _, ewma_singleton _ _⟩

/-- C5: all five derived series have exactly the length of the input
price sequence. -/
theorem plot_data_lengths (long_win short_win : ℚ) (prices : List ℚ) :
    (plot_data long_win short_win prices).lt_av.length = prices.length ∧
    (plot_data long_win short_win prices).st_av.length = prices.length ∧
    (plot_data long_win short_win prices).diff_ltst.length = prices.length ∧
    (plot_data long_win short_win prices).diff_ltst_av.length = prices.length ∧
    (plot_data long_win short_win prices).diff_av_diff.length = prices.length := by
  simp [plot_data, ewma_length, List.length_zipWith]

end StockPrice

namespace StockPrice

/-! ### Claim theorems: window-string conversion and argument passing -/

/-- C6: window-string conversion multiplies by 7 on a trailing `w`,
keeps days on a trailing `d`, and defaults to weeks otherwise; in
particular `"4w"` gives 28, `"2w"` gives 14, `"10d"` gives 10 and `"3"`
gives 21 days. -/
theorem convert_input_spec (cs : List Char) (n : ℚ) (h : pyFloat cs = some n) :
    convert_input (cs ++ ['w']) = .ok (n * 7) ∧
    convert_input (cs ++ ['d']) = .ok n ∧
    (∀ c, cs.getLast? = some c → c ≠ 'w' → c ≠ 'd' →
      convert_input cs = .ok (n * 7)) ∧
    convert_input "4w".data = .ok 28 ∧
    convert_input "2w".data = .ok 14 ∧
    convert_input "10d".data = .ok 10 ∧
    convert_input "3".data = .ok 21 := by
  refine ⟨?_, ?_, ?_, ?_, ?_, ?_, ?_⟩
  · simp [convert_input, List.getLast?_concat, List.dropLast_concat, h]
  · simp +decide [convert_input, List.getLast?_concat, List.dropLast_concat, h]
  · intro c hc hw hd
    simp [convert_input, hc, hw, hd, h]
  · simp +decide [convert_input, pyFloat, splitChar, digitsToNat]; norm_num
  · simp +decide [convert_input, pyFloat, splitChar, digitsToNat]; norm_num
  · simp +decide [convert_input, pyFloat, splitChar, digitsToNat]
  · simp +decide [convert_input, pyFloat, splitChar, digitsToNat]; norm_num

/-- Witness for C6 on the numeric string `"4"`. -/
theorem convert_input_spec_witness :
    pyFloat "4".data = some 4 ∧
    convert_input ("4".data ++ ['w']) = .ok (4 * 7) := by
  have h4 : pyFloat "4".data = some 4 := by
    simp +decide [pyFloat, splitChar, digitsToNat]
  exact ⟨h4, (convert_input_spec "4".data 4 h4).1⟩

/-- C2 (code bug): with the default arguments `-l "4w"` and `-s "2w"`,
the long-term average the program computes uses span 14 (the SHORT
window) and the short-term average uses span 28 (the LONG window),
because line 165 passes `short_win, long_win` positionally into
`plot_data(data, out_file, long_win, short_win)`; the two spans give
genuinely different series, so the swap is observable. This contradicts
`plot_data`'s own docstring, under which `lt_av` should use the `-l`
window. -/
theorem main_series_windows_swapped :
    (main_series "4w".data "2w".data [0, 1]).map SeriesBundle.lt_av =
      some (ewma 14 [0, 1]) ∧
    (main_series "4w".data "2w".data [0, 1]).map SeriesBundle.st_av =
      some (ewma 28 [0, 1]) ∧
    ewma 14 [0, 1] ≠ ewma 28 [0, 1] := by
  have h2 : convert_input "2w".data = .ok 14 := by
    simp +decide [convert_input, pyFloat, splitChar, digitsToNat]; norm_num
  have h4 : convert_input "4w".data = .ok 28 := by
    simp +decide [convert_input, pyFloat, splitChar, digitsToNat]; norm_num
  refine ⟨?_, ?_, ?_⟩
  · simp [main_series, h2, h4, plot_data]
  · simp [main_series, h2, h4, plot_data]
  · norm_num [ewma, ewmaAux, alpha]

/-! ### Claim theorems: the CSV loader -/

theorem dateLe_trans (a b c : Date × ℚ) (hab : dateLe a b = true)
    (hbc : dateLe b c = true) : dateLe a c = true := by
  simp only [dateLe, decide_eq_true_eq] at *
  omega

theorem dateLe_total (a b : Date × ℚ) : (dateLe a b || dateLe b a) = true := by
  simp only [dateLe, Bool.or_eq_true, decide_eq_true_eq]
  omega

theorem process_csv_file_ok_sorted (rows : List (List String))
    (out : List (Date × ℚ)) (h : process_csv_file rows = .ok out) :
    List.Pairwise (fun p q : Date × ℚ => p.1.toNat ≤ q.1.toNat) out := by
  unfold process_csv_file at h
  simp only [bind, Except.bind, pure, Except.pure] at h
  cases hm : (rows.drop 1).mapM parseRow with
  | error e => rw [hm] at h; simp at h
  | ok data =>
    rw [hm] at h
    simp only [Except.ok.injEq] at h
    subst h
    have hs := List.sorted_mergeSort dateLe_trans dateLe_total data
    exact hs.imp (fun hab => by simpa [dateLe] using hab)

/-- C7: every successful load produces pairs sorted ascending by date,
and the spec's concrete round-trip holds: a header plus the rows
`02-Jan-15, ..., 100.0` and `01-Jan-15, ..., 99.0` (in that order)
load as `[(2015-01-01, 99), (2015-01-02, 100)]`. -/
theorem process_csv_file_sorted (rows : List (List String))
    (out : List (Date × ℚ)) (h : process_csv_file rows = .ok out) :
    List.Pairwise (fun p q : Date × ℚ => p.1.toNat ≤ q.1.toNat) out ∧
    process_csv_file
        [["Date", "Open", "High", "Low", "Close"],
         ["02-Jan-15", "_", "_", "_", "100.0"],
         ["01-Jan-15", "_", "_", "_", "99.0"]] =
      .ok [(⟨2015, 1, 1⟩, 99), (⟨2015, 1, 2⟩, 100)] := by
  refine ⟨process_csv_file_ok_sorted rows out h, ?_⟩
  simp +decide [process_csv_file, parseRow, pyFloat, splitChar, digitsToNat,
    List.mapM, List.mapM.loop, List.mergeSort, List.merge, bind, Except.bind,
    pure, Except.pure, Date.toNat, strptimeDmyDate, monthNum, monthNames,
    daysInMonth, isLeap, dateLe]

/-- Witness for C7 on a one-row CSV. -/
theorem process_csv_file_sorted_witness :
    process_csv_file [["Date"], ["01-Jan-15", "_", "_", "_", "99.0"]] =
      .ok [(⟨2015, 1, 1⟩, 99)] ∧
    List.Pairwise (fun p q : Date × ℚ => p.1.toNat ≤ q.1.toNat)
      [((⟨2015, 1, 1⟩ : Date), (99 : ℚ))] := by
  have h : process_csv_file [["Date"], ["01-Jan-15", "_", "_", "_", "99.0"]] =
      .ok [(⟨2015, 1, 1⟩, 99)] := by
    simp +decide [process_csv_file, parseRow, pyFloat, splitChar, digitsToNat,
      List.mapM, List.mapM.loop, List.mergeSort, bind, Except.bind,
      pure, Except.pure, strptimeDmyDate, monthNum, monthNames,
      daysInMonth, isLeap]
  exact ⟨h, (process_csv_file_sorted _ _ h).1⟩

end StockPrice

namespace StockPrice

/-! ### Claim theorems: top-level error handling -/

/-- C8: once the window arguments have converted successfully, a missing
or unreadable input file makes `__main` print a one-line `IOError:`-prefixed
diagnostic and exit with status 1, and a date/value parse failure during
loading makes it print a one-line `ValueError:`-prefixed diagnostic and
exit with status 1; a malformed date string such as `"2015-01-01"`
(instead of `"01-Jan-15"`) is exactly such a parse failure, not a silent
default. -/
theorem main_top_level_error_handling (file : Option (List (List String)))
    (longArg shortArg : List Char) (lw sw : ℚ)
    (hl : convert_input longArg = .ok lw) (hs : convert_input shortArg = .ok sw) :
    (file = none →
      main_model file longArg shortArg = .exitPrinted "IOError" ∧
      (main_model file longArg shortArg).exitCode = 1 ∧
      (main_model file longArg shortArg).printsKindLine = true) ∧
    (∀ rows, file = some rows → process_csv_file rows = .error .valueError →
      main_model file longArg shortArg = .exitPrinted "ValueError" ∧
      (main_model file longArg shortArg).exitCode = 1 ∧
      (main_model file longArg shortArg).printsKindLine = true) ∧
    strptimeDmyDate "2015-01-01".data = none ∧
    parseRow ["2015-01-01", "_", "_", "_", "1.0"] = .error .valueError := by
  refine ⟨?_, ?_, ?_, ?_⟩
  · intro hf
    subst hf
    simp [main_model, hl, hs, MainOutcome.exitCode, MainOutcome.printsKindLine]
  · intro rows hf hrows
    subst hf
    simp [main_model, hl, hs, hrows, MainOutcome.exitCode, MainOutcome.printsKindLine]
  · decide
  · simp +decide [parseRow, strptimeDmyDate, splitChar, monthNum, monthNames]

/-- Witness for C8: valid windows, missing input file. -/
theorem main_top_level_error_handling_witness :
    convert_input "10d".data = .ok 10 ∧
    ((none : Option (List (List String))) = none →
      main_model none "10d".data "10d".data = .exitPrinted "IOError" ∧
      (main_model none "10d".data "10d".data).exitCode = 1 ∧
      (main_model none "10d".data "10d".data).printsKindLine = true) := by
  have h10 : convert_input "10d".data = .ok 10 := by
    simp +decide [convert_input, pyFloat, splitChar, digitsToNat]
  exact ⟨h10, (main_top_level_error_handling none "10d".data "10d".data 10 10 h10 h10).1⟩

/-- C9 counterexample: with an invalid short-window string `"xx"`,
`__main` raises the `ValueError` BEFORE its `try` block (lines 161-162
precede line 163), so the error is not caught at the top level and no
kind-prefixed one-line diagnostic is printed; the interpreter dies with
a traceback instead. -/
theorem window_error_not_caught_cex :
    main_model (some [["Date"]]) "4w".data "xx".data = .uncaught .valueError ∧
    (main_model (some [["Date"]]) "4w".data "xx".data).printsKindLine = false ∧
    main_model (some [["Date"]]) "4w".data "xx".data ≠ .exitPrinted "ValueError" := by
  have hxx : convert_input "xx".data = .error .valueError := by
    simp +decide [convert_input, pyFloat, splitChar, digitsToNat]
  refine ⟨?_, ?_, ?_⟩ <;>
    simp [main_model, hxx, MainOutcome.printsKindLine]

/-- C9 (amended): an invalid window string for `-s` or `-l` raises its
error before the `try` block, so it escapes `__main` uncaught; the
process still terminates with status 1 (the interpreter's exit code for
an unhandled exception), but prints a traceback, not the kind-prefixed
one-line diagnostic of the top-level handler. -/
theorem window_error_uncaught (file : Option (List (List String)))
    (longArg shortArg : List Char) (e : PyError) :
    (convert_input shortArg = .error e →
      main_model file longArg shortArg = .uncaught e ∧
      (main_model file longArg shortArg).exitCode = 1 ∧
      (main_model file longArg shortArg).printsKindLine = false) ∧
    (∀ sw, convert_input shortArg = .ok sw → convert_input longArg = .error e →
      main_model file longArg shortArg = .uncaught e ∧
      (main_model file longArg shortArg).exitCode = 1 ∧
      (main_model file longArg shortArg).printsKindLine = false) := by
  constructor
  · intro hshort
    simp [main_model, hshort, MainOutcome.exitCode, MainOutcome.printsKindLine]
  · intro sw hshort hlong
    simp [main_model, hshort, hlong, MainOutcome.exitCode, MainOutcome.printsKindLine]

/-- Witness for the amended C9 with the invalid short window `"xx"`. -/
theorem window_error_uncaught_witness :
    convert_input "xx".data = .error .valueError ∧
    (main_model none "10d".data "xx".data = .uncaught .valueError ∧
      (main_model none "10d".data "xx".data).exitCode = 1 ∧
      (main_model none "10d".data "xx".data).printsKindLine = false) := by
  have hxx : convert_input "xx".data = .error .valueError := by
    simp +decide [convert_input, pyFloat, splitChar, digitsToNat]
  exact ⟨hxx, (window_error_uncaught none "10d".data "xx".data .valueError).1 hxx⟩

end StockPrice

namespace StockPrice

/-! ### Tracking tightness of the two averages (C10) -/

theorem geomSum_pos (b : ℚ) (hb : 0 ≤ b) (i : ℕ) : 0 < geomSum b i := by
  apply Finset.sum_pos'
  · intro j _
    exact pow_nonneg hb j
  · exact ⟨0, Finset.mem_range.mpr (by omega), by norm_num⟩

theorem getD_eq_get (xs : List ℚ) (a : ℕ) (h : a < xs.length) :
    xs.getD a 0 = xs.get ⟨a, h⟩ := by
  rw [List.getD_eq_get?, List.get?_eq_get h]
  rfl

theorem strictIncr_getD_lt (xs : List ℚ) (hx : StrictIncr xs) (a c : ℕ)
    (hac : a < c) (hc : c < xs.length) : xs.getD a 0 < xs.getD c 0 := by
  have hp : List.Pairwise (· < ·) xs := List.chain'_iff_pairwise.mp hx
  have ha : a < xs.length := lt_trans hac hc
  rw [getD_eq_get xs a ha, getD_eq_get xs c hc]
  exact List.pairwise_iff_get.mp hp ⟨a, ha⟩ ⟨c, hc⟩ hac

theorem strictIncr_getD_le (xs : List ℚ) (hx : StrictIncr xs) (a c : ℕ)
    (hac : a ≤ c) (hc : c < xs.length) : xs.getD a 0 ≤ xs.getD c 0 := by
  rcases Nat.eq_or_lt_of_le hac with rfl | h
  · exact le_refl _
  · exact le_of_lt (strictIncr_getD_lt xs hx a c h hc)

theorem cross_term_nonneg (b1 b2 : ℚ) (hb1 : 0 ≤ b1) (hb2 : b1 ≤ b2)
    (d : ℕ → ℚ) (i : ℕ) (hmono : ∀ j k, j ≤ k → k ≤ i → d k ≤ d j)
    (j k : ℕ) (hj : j ≤ i) (hk : k ≤ i) :
    0 ≤ (b2 ^ k * b1 ^ j - b1 ^ k * b2 ^ j) * (d j - d k) := by
  have hb2n : 0 ≤ b2 := le_trans hb1 hb2
  rcases le_total j k with h | h
  · obtain ⟨m, rfl⟩ := Nat.exists_eq_add_of_le h
    have hfac : b2 ^ (j + m) * b1 ^ j - b1 ^ (j + m) * b2 ^ j
        = b1 ^ j * b2 ^ j * (b2 ^ m - b1 ^ m) := by
      rw [pow_add, pow_add]; ring
    rw [hfac]
    apply mul_nonneg
    · exact mul_nonneg (mul_nonneg (pow_nonneg hb1 j) (pow_nonneg hb2n j))
        (sub_nonneg.mpr (pow_le_pow_left₀ hb1 hb2 m))
    · exact sub_nonneg.mpr (hmono j (j + m) h hk)
  · obtain ⟨m, rfl⟩ := Nat.exists_eq_add_of_le h
    have hfac : b2 ^ k * b1 ^ (k + m) - b1 ^ k * b2 ^ (k + m)
        = -(b1 ^ k * b2 ^ k * (b2 ^ m - b1 ^ m)) := by
      rw [pow_add, pow_add]; ring
    rw [hfac, ← neg_mul_neg]
    simp only [neg_neg]
    apply mul_nonneg
    · exact mul_nonneg (mul_nonneg (pow_nonneg hb1 k) (pow_nonneg hb2n k))
        (sub_nonneg.mpr (pow_le_pow_left₀ hb1 hb2 m))
    · -- 0 ≤ -(d (k+m) - d k) = d k - d (k+m)
      have := hmono k (k + m) h hj
      linarith

theorem geom_cross_lt (b1 b2 : ℚ) (hb1 : 0 ≤ b1) (h12 : b1 < b2) (i : ℕ)
    (hi : 1 ≤ i) (d : ℕ → ℚ) (hmono : ∀ j k, j ≤ k → k ≤ i → d k ≤ d j)
    (hstrict : d 1 < d 0) :
    (∑ j ∈ Finset.range (i + 1), b1 ^ j) * (∑ j ∈ Finset.range (i + 1), b2 ^ j * d j)
      < (∑ j ∈ Finset.range (i + 1), b2 ^ j) *
          (∑ j ∈ Finset.range (i + 1), b1 ^ j * d j) := by
  have hbound : ∀ j, j ∈ Finset.range (i + 1) → j ≤ i := by
    intro j hj
    exact Nat.lt_succ_iff.mp (Finset.mem_range.mp hj)
  have key : 0 < ∑ j ∈ Finset.range (i + 1), ∑ k ∈ Finset.range (i + 1),
      (b2 ^ k * b1 ^ j - b1 ^ k * b2 ^ j) * (d j - d k) := by
    apply Finset.sum_pos'
    · intro j hj
      apply Finset.sum_nonneg
      intro k hk
      exact cross_term_nonneg b1 b2 hb1 h12.le d i hmono j k (hbound j hj) (hbound k hk)
    · refine ⟨1, Finset.mem_range.mpr (by omega), ?_⟩
      apply Finset.sum_pos'
      · intro k hk
        exact cross_term_nonneg b1 b2 hb1 h12.le d i hmono 1 k (by omega) (hbound k hk)
      · refine ⟨0, Finset.mem_range.mpr (by omega), ?_⟩
        have h0 : (b2 ^ 0 * b1 ^ 1 - b1 ^ 0 * b2 ^ 1) * (d 1 - d 0)
            = (b2 - b1) * (d 0 - d 1) := by ring
        rw [h0]
        exact mul_pos (sub_pos.mpr h12) (sub_pos.mpr hstrict)
  have hsplit : ∀ j k : ℕ,
      (b2 ^ k * b1 ^ j - b1 ^ k * b2 ^ j) * (d j - d k)
        = b2 ^ k * (b1 ^ j * d j) - b1 ^ k * (b2 ^ j * d j)
            - b1 ^ j * (b2 ^ k * d k) + b2 ^ j * (b1 ^ k * d k) := by
    intro j k; ring
  have hA1 : ∑ j ∈ Finset.range (i + 1), ∑ k ∈ Finset.range (i + 1),
        b2 ^ k * (b1 ^ j * d j)
      = (∑ k ∈ Finset.range (i + 1), b2 ^ k) *
          (∑ j ∈ Finset.range (i + 1), b1 ^ j * d j) := by
    rw [Finset.sum_mul_sum]
    exact Finset.sum_comm
  have hA2 : ∑ j ∈ Finset.range (i + 1), ∑ k ∈ Finset.range (i + 1),
        b1 ^ k * (b2 ^ j * d j)
      = (∑ k ∈ Finset.range (i + 1), b1 ^ k) *
          (∑ j ∈ Finset.range (i + 1), b2 ^ j * d j) := by
    rw [Finset.sum_mul_sum]
    exact Finset.sum_comm
  have hA3 : ∑ j ∈ Finset.range (i + 1), ∑ k ∈ Finset.range (i + 1),
        b1 ^ j * (b2 ^ k * d k)
      = (∑ j ∈ Finset.range (i + 1), b1 ^ j) *
          (∑ k ∈ Finset.range (i + 1), b2 ^ k * d k) := by
    rw [Finset.sum_mul_sum]
  have hA4 : ∑ j ∈ Finset.range (i + 1), ∑ k ∈ Finset.range (i + 1),
        b2 ^ j * (b1 ^ k * d k)
      = (∑ j ∈ Finset.range (i + 1), b2 ^ j) *
          (∑ k ∈ Finset.range (i + 1), b1 ^ k * d k) := by
    rw [Finset.sum_mul_sum]
  have expand : ∑ j ∈ Finset.range (i + 1), ∑ k ∈ Finset.range (i + 1),
        (b2 ^ k * b1 ^ j - b1 ^ k * b2 ^ j) * (d j - d k)
      = 2 * ((∑ k ∈ Finset.range (i + 1), b2 ^ k) *
              (∑ j ∈ Finset.range (i + 1), b1 ^ j * d j)
            - (∑ k ∈ Finset.range (i + 1), b1 ^ k) *
              (∑ j ∈ Finset.range (i + 1), b2 ^ j * d j)) := by
    simp only [hsplit, Finset.sum_add_distrib, Finset.sum_sub_distrib]
    rw [hA1, hA2, hA3, hA4]
    ring
  rw [expand] at key
  linarith


theorem one_sub_alpha_nonneg (s : ℚ) (hs : 1 ≤ s) : 0 ≤ 1 - alpha s := by
  rw [alpha]
  have h1 : (0 : ℚ) < s + 1 := by linarith
  have h2 : 2 / (s + 1) ≤ 1 := by
    rw [div_le_one h1]; linarith
  linarith

theorem one_sub_alpha_lt (s1 s2 : ℚ) (h1 : 1 ≤ s1) (h12 : s1 < s2) :
    1 - alpha s1 < 1 - alpha s2 := by
  unfold alpha
  have e1 : (0 : ℚ) < s1 + 1 := by linarith
  have h2 : 2 / (s2 + 1) < 2 / (s1 + 1) :=
    div_lt_div_of_pos_left (by norm_num) e1 (by linarith)
  linarith

theorem ewma_getD_le_self (span : ℚ) (hb : 0 ≤ 1 - alpha span) (xs : List ℚ)
    (hx : StrictIncr xs) (i : ℕ) (hi : i < xs.length) :
    (ewma span xs).getD i 0 ≤ xs.getD i 0 := by
  rw [ewma_getD span xs i hi]
  have hS : 0 < geomSum (1 - alpha span) i := geomSum_pos _ hb i
  rw [div_le_iff₀ hS]
  rw [weightedSum, geomSum, Finset.mul_sum]
  apply Finset.sum_le_sum
  intro j hj
  have hji : j ≤ i := Nat.lt_succ_iff.mp (Finset.mem_range.mp hj)
  have hd : xs.getD (i - j) 0 ≤ xs.getD i 0 :=
    strictIncr_getD_le xs hx (i - j) i (by omega) hi
  calc (1 - alpha span) ^ j * xs.getD (i - j) 0
      ≤ (1 - alpha span) ^ j * xs.getD i 0 :=
        mul_le_mul_of_nonneg_left hd (pow_nonneg hb j)
    _ = xs.getD i 0 * (1 - alpha span) ^ j := mul_comm _ _

theorem ewma_getD_lt_of_span_lt (s1 s2 : ℚ) (hs1 : 1 ≤ s1) (h12 : s1 < s2)
    (xs : List ℚ) (hx : StrictIncr xs) (i : ℕ) (hi1 : 1 ≤ i)
    (hi : i < xs.length) :
    (ewma s2 xs).getD i 0 < (ewma s1 xs).getD i 0 := by
  have hb1 : 0 ≤ 1 - alpha s1 := one_sub_alpha_nonneg s1 hs1
  have hbb : 1 - alpha s1 < 1 - alpha s2 := one_sub_alpha_lt s1 s2 hs1 h12
  rw [ewma_getD s1 xs i hi, ewma_getD s2 xs i hi]
  have hS1 : 0 < geomSum (1 - alpha s1) i := geomSum_pos _ hb1 i
  have hS2 : 0 < geomSum (1 - alpha s2) i := geomSum_pos _ (le_trans hb1 hbb.le) i
  rw [div_lt_div_iff₀ hS2 hS1]
  have hmono : ∀ j k, j ≤ k → k ≤ i →
      xs.getD (i - k) 0 ≤ xs.getD (i - j) 0 := by
    intro j k hjk hki
    exact strictIncr_getD_le xs hx (i - k) (i - j) (by omega) (by omega)
  have hstrict : xs.getD (i - 1) 0 < xs.getD (i - 0) 0 := by
    have := strictIncr_getD_lt xs hx (i - 1) i (by omega) hi
    simpa using this
  have hkey := geom_cross_lt (1 - alpha s1) (1 - alpha s2) hb1 hbb i hi1
    (fun j => xs.getD (i - j) 0) hmono hstrict
  simp only [weightedSum, geomSum]
  calc (∑ j ∈ Finset.range (i + 1), (1 - alpha s2) ^ j * xs.getD (i - j) 0) *
        (∑ j ∈ Finset.range (i + 1), (1 - alpha s1) ^ j)
      = (∑ j ∈ Finset.range (i + 1), (1 - alpha s1) ^ j) *
        (∑ j ∈ Finset.range (i + 1), (1 - alpha s2) ^ j * xs.getD (i - j) 0) :=
        mul_comm _ _
    _ < (∑ j ∈ Finset.range (i + 1), (1 - alpha s2) ^ j) *
        (∑ j ∈ Finset.range (i + 1), (1 - alpha s1) ^ j * xs.getD (i - j) 0) := hkey
    _ = (∑ j ∈ Finset.range (i + 1), (1 - alpha s1) ^ j * xs.getD (i - j) 0) *
        (∑ j ∈ Finset.range (i + 1), (1 - alpha s2) ^ j) := mul_comm _ _

theorem sum_zipWith_absdev (xs ys : List ℚ) (h : ys.length = xs.length) :
    (List.zipWith (fun a b => |a - b|) xs ys).sum
      = ∑ i ∈ Finset.range xs.length, |xs.getD i 0 - ys.getD i 0| := by
  induction xs generalizing ys with
  | nil => simp
  | cons x xs ih =>
    cases ys with
    | nil => simp at h
    | cons y ys =>
      have h2 : ys.length = xs.length := by simpa using h
      rw [List.zipWith_cons_cons, List.sum_cons, ih ys h2, List.length_cons,
        Finset.sum_range_succ']
      simp only [List.getD_cons_succ, List.getD_cons_zero]
      exact add_comm _ _

/-- C10 (amended): for spans `1 <= s1 < s2` (spans below 1 are rejected
by the averaging library) and every strictly increasing price sequence
of length at least 2, the EWMA with the smaller span has a strictly
smaller average absolute deviation from the raw prices; for shorter
inputs the deviations coincide. -/
theorem smaller_span_tracks_tighter (s1 s2 : ℚ) (hs1 : 1 ≤ s1) (h12 : s1 < s2)
    (xs : List ℚ) (hx : StrictIncr xs) (hlen : 2 ≤ xs.length) :
    avgAbsDev xs (ewma s1 xs) < avgAbsDev xs (ewma s2 xs) := by
  have hb1 : 0 ≤ 1 - alpha s1 := one_sub_alpha_nonneg s1 hs1
  have hb2 : 0 ≤ 1 - alpha s2 := one_sub_alpha_nonneg s2 (by linarith)
  have hN : (0 : ℚ) < (xs.length : ℚ) := by
    have : 0 < xs.length := by omega
    exact_mod_cast this
  rw [avgAbsDev, avgAbsDev, sum_zipWith_absdev xs (ewma s1 xs) (ewma_length s1 xs),
    sum_zipWith_absdev xs (ewma s2 xs) (ewma_length s2 xs)]
  apply div_lt_div_of_pos_right ?_ hN
  apply Finset.sum_lt_sum
  · intro i hi
    have hiN : i < xs.length := Finset.mem_range.mp hi
    have d1 : (ewma s1 xs).getD i 0 ≤ xs.getD i 0 :=
      ewma_getD_le_self s1 hb1 xs hx i hiN
    have d2 : (ewma s2 xs).getD i 0 ≤ xs.getD i 0 :=
      ewma_getD_le_self s2 hb2 xs hx i hiN
    rw [abs_of_nonneg (sub_nonneg.mpr d1), abs_of_nonneg (sub_nonneg.mpr d2)]
    rcases Nat.eq_zero_or_pos i with rfl | hip
    · rw [ewma_getD_zero s1 xs (by omega), ewma_getD_zero s2 xs (by omega)]
    · have := ewma_getD_lt_of_span_lt s1 s2 hs1 h12 xs hx i hip hiN
      linarith
  · refine ⟨1, Finset.mem_range.mpr (by omega), ?_⟩
    have hiN : 1 < xs.length := by omega
    have d1 : (ewma s1 xs).getD 1 0 ≤ xs.getD 1 0 :=
      ewma_getD_le_self s1 hb1 xs hx 1 hiN
    have d2 : (ewma s2 xs).getD 1 0 ≤ xs.getD 1 0 :=
      ewma_getD_le_self s2 hb2 xs hx 1 hiN
    rw [abs_of_nonneg (sub_nonneg.mpr d1), abs_of_nonneg (sub_nonneg.mpr d2)]
    have := ewma_getD_lt_of_span_lt s1 s2 hs1 h12 xs hx 1 le_rfl hiN
    linarith

/-- C10 counterexample: the single-element sequence `[1]` is strictly
increasing, yet the EWMAs with spans 14 and 28 both equal the input, so
the average absolute deviation is 0 for both and the one with the
smaller span is NOT strictly smaller. -/
theorem smaller_span_not_always_tighter_cex :
    (14 : ℚ) < 28 ∧ StrictIncr [(1 : ℚ)] ∧
    ¬ avgAbsDev [(1 : ℚ)] (ewma 14 [1]) < avgAbsDev [(1 : ℚ)] (ewma 28 [1]) := by
  refine ⟨by norm_num, List.chain'_singleton _, ?_⟩
  norm_num [avgAbsDev, ewma, ewmaAux, alpha]

/-- Witness for the amended C10 at spans 14 < 28 on prices `[0, 1]`. -/
theorem smaller_span_tracks_tighter_witness :
    (1 : ℚ) ≤ 14 ∧ (14 : ℚ) < 28 ∧ StrictIncr [(0 : ℚ), 1] ∧
    2 ≤ ([(0 : ℚ), 1]).length ∧
    avgAbsDev [(0 : ℚ), 1] (ewma 14 [0, 1]) < avgAbsDev [(0 : ℚ), 1] (ewma 28 [0, 1]) := by
  have hx : StrictIncr [(0 : ℚ), 1] := by
    constructor
    · norm_num
    · exact List.chain'_singleton _
  exact ⟨by norm_num, by norm_num, hx, by simp,
    smaller_span_tracks_tighter 14 28 (by norm_num) (by norm_num) [0, 1] hx (by simp)⟩


end StockPrice
